import Mathlib

/-!
Verification of the multiplication-table app (src/app.py) against its
natural-language specification.

The app builds, for a slider-chosen size `n`, the matrix
`data = np.outer(np.arange(1, n+1), np.arange(1, n+1))` wrapped in a
dataframe with string row/column labels, optionally appends row/column
totals, styles it, renders a heatmap, and offers a CSV download.
Every Python fragment the claims depend on is embedded below as an
executable Lean definition; line numbers refer to src/app.py.
-/

set_option autoImplicit false

namespace MultTable

/-- Lines 37-39: `rows = np.arange(1, n+1)`, `cols = np.arange(1, n+1)`,
`data = np.outer(rows, cols)`.  Row `i` (0-based) holds `(i+1)*(j+1)` at
0-based column `j`. -/
def tableData (n : ℕ) : List (List ℕ) :=
  (List.range n).map (fun i => (List.range n).map (fun j => (i + 1) * (j + 1)))

/-- Line 40: the dataframe index/columns `[f"{i}" for i in rows]` — decimal
string labels "1", "2", …, "n". -/
def labels (n : ℕ) : List String :=
  (List.range n).map (fun i => Nat.repr (i + 1))

/-- Line 44: per-row sum `df.sum(axis=1)` of the base matrix, for 0-based
row `i`. -/
def rowSum (n i : ℕ) : ℕ :=
  ((List.range n).map (fun j => (i + 1) * (j + 1))).sum

/-- Lines 43-44: `df["Σ row"] = df.sum(axis=1)` mutates `df` itself,
appending the row-total as a final column of every row. -/
def dfRowsTotals (n : ℕ) : List (List ℕ) :=
  (tableData n).map (fun row => row ++ [row.sum])

/-- The base row sums of the `n × n` table, as the list produced by
`df.sum(axis=1)` before any mutation (line 44, right-hand side). -/
def rowSums (n : ℕ) : List ℕ :=
  (tableData n).map List.sum

/-- Column sums of the base table, `df.sum(axis=0)` over the unmutated base
matrix: entry `j` is `Σ_i (i+1)*(j+1)`. -/
def colSums (n : ℕ) : List ℕ :=
  (List.range n).map (fun j => ((tableData n).map (fun row => row.getD j 0)).sum)

/- ------------------------------------------------------------------ -/
/- Helper lemmas about list lookup in the generated table.             -/
/- ------------------------------------------------------------------ -/

theorem getD_map_of_lt {α β : Type} (f : α → β) (l : List α) (i : ℕ)
    (h : i < l.length) (d : β) (d' : α) :
    (l.map f).getD i d = f (l.getD i d') := by
  induction l generalizing i with
  | nil => simp at h
  | cons a t ih =>
    cases i with
    | zero => rfl
    | succ k =>
      simp only [List.map_cons, List.getD_cons_succ]
      exact ih k (by simpa using h)

theorem range_getD_of_lt (n i : ℕ) (h : i < n) (d : ℕ) :
    (List.range n).getD i d = i := by
  have h' : i < (List.range n).length := by simpa using h
  rw [List.getD_eq_getElem _ _ h']
  exact List.getElem_range i h'

/-- Cell formula for the generated matrix at 0-based indices. -/
theorem tableData_cell (n i j : ℕ) (hi : i < n) (hj : j < n) :
    ((tableData n).getD i []).getD j 0 = (i + 1) * (j + 1) := by
  unfold tableData
  rw [getD_map_of_lt _ _ i (by simpa using hi) _ 0]
  rw [range_getD_of_lt n i hi]
  rw [getD_map_of_lt _ _ j (by simpa using hj) _ 0]
  rw [range_getD_of_lt n j hj]

theorem labels_getD (n i : ℕ) (hi : i < n) :
    (labels n).getD i "" = Nat.repr (i + 1) := by
  unfold labels
  rw [getD_map_of_lt _ _ i (by simpa using hi) _ 0]
  rw [range_getD_of_lt n i hi]

/- ------------------------------------------------------------------ -/
/- C1, C4, C5, C7                                                      -/
/- ------------------------------------------------------------------ -/

/-- C1: for every table size `n` and all 1-based indices `1 ≤ i, j ≤ n`,
the generated table has cell `(i, j)` equal to `i * j`, and the 1-indexed
row and column labels at those positions are the decimal strings of `i`
and `j`. -/
theorem c1_table_cells (n i j : ℕ)
    (hi1 : 1 ≤ i) (hin : i ≤ n) (hj1 : 1 ≤ j) (hjn : j ≤ n) :
    ((tableData n).getD (i - 1) []).getD (j - 1) 0 = i * j ∧
    (labels n).getD (i - 1) "" = Nat.repr i ∧
    (labels n).getD (j - 1) "" = Nat.repr j := by
  have hi' : i - 1 < n := by omega
  have hj' : j - 1 < n := by omega
  have hi1' : i - 1 + 1 = i := by omega
  have hj1' : j - 1 + 1 = j := by omega
  refine ⟨?_, ?_, ?_⟩
  · rw [tableData_cell n _ _ hi' hj', hi1', hj1']
  · rw [labels_getD n _ hi', hi1']
  · rw [labels_getD n _ hj', hj1']

theorem c1_table_cells_witness :
    ((tableData 12).getD (7 - 1) []).getD (9 - 1) 0 = 7 * 9 ∧
    (labels 12).getD (7 - 1) "" = Nat.repr 7 ∧
    (labels 12).getD (9 - 1) "" = Nat.repr 9 :=
  c1_table_cells 12 7 9 (by decide) (by decide) (by decide) (by decide)

/-- C4: the generated table is symmetric — for all `1 ≤ i, j ≤ n` the cell
at `(i, j)` equals the cell at `(j, i)`. -/
theorem c4_symmetric (n i j : ℕ)
    (hi1 : 1 ≤ i) (hin : i ≤ n) (hj1 : 1 ≤ j) (hjn : j ≤ n) :
    ((tableData n).getD (i - 1) []).getD (j - 1) 0 =
      ((tableData n).getD (j - 1) []).getD (i - 1) 0 := by
  have hi' : i - 1 < n := by omega
  have hj' : j - 1 < n := by omega
  rw [tableData_cell n _ _ hi' hj', tableData_cell n _ _ hj' hi']
  exact Nat.mul_comm _ _

theorem c4_symmetric_witness :
    ((tableData 12).getD (3 - 1) []).getD (11 - 1) 0 =
      ((tableData 12).getD (11 - 1) []).getD (3 - 1) 0 :=
  c4_symmetric 12 3 11 (by decide) (by decide) (by decide) (by decide)

/-- C5: every diagonal cell of the generated table is a perfect square —
the cell at `(i, i)` equals `i * i` for all `1 ≤ i ≤ n`. -/
theorem c5_diagonal_squares (n i : ℕ) (hi1 : 1 ≤ i) (hin : i ≤ n) :
    ((tableData n).getD (i - 1) []).getD (i - 1) 0 = i * i := by
  have h := c1_table_cells n i i hi1 hin hi1 hin
  exact h.1

theorem c5_diagonal_squares_witness :
    ((tableData 12).getD (5 - 1) []).getD (5 - 1) 0 = 5 * 5 :=
  c5_diagonal_squares 12 5 (by decide) (by decide)

/-- C7: for `n = 3` the generated table is `[[1,2,3],[2,4,6],[3,6,9]]`,
its row sums are `[6,12,18]` and its column sums are `[6,12,18]`. -/
theorem c7_concrete_three :
    tableData 3 = [[1, 2, 3], [2, 4, 6], [3, 6, 9]] ∧
    rowSums 3 = [6, 12, 18] ∧
    colSums 3 = [6, 12, 18] := by
  decide

/- ------------------------------------------------------------------ -/
/- C9: the slider (line 28)                                            -/
/- ------------------------------------------------------------------ -/

/-- Line 28: `n = st.slider("Table size (n × n)", 5, 50, 12)` — minimum. -/
def sliderLo : ℕ := 5

/-- Line 28: slider maximum. -/
def sliderHi : ℕ := 50

/-- Line 28: slider default value. -/
def sliderDefault : ℕ := 12

/-- The values the integer slider of line 28 can produce.  A Streamlit
integer slider with default step 1 returns an integer between its minimum
and its maximum inclusive. -/
def sliderReachable (v : ℕ) : Prop := sliderLo ≤ v ∧ v ≤ sliderHi

/-- C9: in every reachable UI state the table size `n` is an integer
between 5 and 50 inclusive, and the table generated from it is exactly
`n × n` — never smaller than 5×5 nor larger than 50×50. -/
theorem c9_slider_bounds (v : ℕ) (h : sliderReachable v) :
    5 ≤ v ∧ v ≤ 50 ∧ (tableData v).length = v ∧
    ∀ row ∈ tableData v, row.length = v := by
  refine ⟨h.1, h.2, by simp [tableData], ?_⟩
  intro row hrow
  unfold tableData at hrow
  obtain ⟨i, _, rfl⟩ := List.mem_map.mp hrow
  simp

theorem c9_slider_bounds_witness :
    5 ≤ sliderDefault ∧ sliderDefault ≤ 50 ∧
    (tableData sliderDefault).length = sliderDefault ∧
    ∀ row ∈ tableData sliderDefault, row.length = sliderDefault :=
  c9_slider_bounds sliderDefault ⟨by decide, by decide⟩

/- ------------------------------------------------------------------ -/
/- Quick-stats model (lines 43-44 and 55-63) and C10                   -/
/- ------------------------------------------------------------------ -/

/-- The dataframe `df` as it stands at lines 55-63: line 44 has already
appended the `Σ row` totals column to `df` itself when the totals toggle
is on; otherwise `df` is still the base matrix. -/
def dfAtStats (n : ℕ) (showTotals : Bool) : List (List ℕ) :=
  if showTotals then dfRowsTotals n else tableData n

/-- All numeric values of `df` at the quick-stats lines (`df.values`). -/
def dfValues (n : ℕ) (showTotals : Bool) : List ℕ :=
  (dfAtStats n showTotals).flatten

/-- Line 61: `df.max().max()` — the largest value of `df`. -/
def statMax (n : ℕ) (showTotals : Bool) : Option ℕ :=
  (dfValues n showTotals).max?

/-- Line 59: `df.min().min()` — the smallest value of `df`. -/
def statMin (n : ℕ) (showTotals : Bool) : Option ℕ :=
  (dfValues n showTotals).min?

/-- Line 63: `df.values.sum()`. -/
def statSum (n : ℕ) (showTotals : Bool) : ℕ :=
  (dfValues n showTotals).sum

/-- Sum of the base `n × n` matrix. -/
def baseSum (n : ℕ) : ℕ := (tableData n).flatten.sum

/-- `1 + 2 + ⋯ + n`, the sum the base row of factor 1 produces. -/
def oneToSum (n : ℕ) : ℕ := ((List.range n).map (fun j => j + 1)).sum

/-- Row `i` (0-based) of the base matrix. -/
def baseRow (n i : ℕ) : List ℕ := (List.range n).map (fun j => (i + 1) * (j + 1))

theorem tableData_eq_map (n : ℕ) : tableData n = (List.range n).map (baseRow n) := rfl

theorem oneToSum_succ (n : ℕ) : oneToSum (n + 1) = oneToSum n + (n + 1) := by
  unfold oneToSum
  rw [List.range_succ]
  simp

theorem oneToSum_mul_two (n : ℕ) : oneToSum n * 2 = n * (n + 1) := by
  induction n with
  | zero => rfl
  | succ k ih =>
    rw [oneToSum_succ]
    have : (oneToSum k + (k + 1)) * 2 = oneToSum k * 2 + (k + 1) * 2 := by ring
    rw [this, ih]
    ring

theorem le_oneToSum (n : ℕ) : n ≤ oneToSum n := by
  induction n with
  | zero => exact Nat.zero_le _
  | succ k ih =>
    rw [oneToSum_succ]
    omega

theorem baseRow_sum (n i : ℕ) : (baseRow n i).sum = (i + 1) * oneToSum n := by
  unfold baseRow oneToSum
  exact List.sum_map_mul_left _ _ _

theorem baseRow_length (n i : ℕ) : (baseRow n i).length = n := by
  simp [baseRow]

/- Fold characterisations of `List.max?` and `List.min?` over ℕ. -/

theorem le_foldl_max_init (l : List ℕ) : ∀ a : ℕ, a ≤ l.foldl max a := by
  induction l with
  | nil => intro a; exact Nat.le_refl a
  | cons b t ih =>
    intro a
    exact Nat.le_trans (Nat.le_max_left a b) (ih (max a b))

theorem le_foldl_max_mem (l : List ℕ) : ∀ a x : ℕ, x ∈ l → x ≤ l.foldl max a := by
  induction l with
  | nil => intro a x hx; simp at hx
  | cons b t ih =>
    intro a x hx
    rcases List.mem_cons.mp hx with h | h
    · subst h
      exact Nat.le_trans (Nat.le_max_right a x) (le_foldl_max_init t (max a x))
    · exact ih (max a b) x h

theorem foldl_max_le (l : List ℕ) :
    ∀ a m : ℕ, a ≤ m → (∀ x ∈ l, x ≤ m) → l.foldl max a ≤ m := by
  induction l with
  | nil => intro a m ha _; exact ha
  | cons b t ih =>
    intro a m ha hall
    exact ih (max a b) m (Nat.max_le.mpr ⟨ha, hall b (by simp)⟩)
      (fun x hx => hall x (by simp [hx]))

theorem max?_eq_some_of_mem_of_le (l : List ℕ) (m : ℕ)
    (hm : m ∈ l) (hb : ∀ x ∈ l, x ≤ m) : l.max? = some m := by
  cases l with
  | nil => simp at hm
  | cons a t =>
    simp only [List.max?]
    congr 1
    apply Nat.le_antisymm
    · exact foldl_max_le t a m (hb a (by simp)) (fun x hx => hb x (by simp [hx]))
    · rcases List.mem_cons.mp hm with h | h
      · subst h; exact le_foldl_max_init t m
      · exact le_foldl_max_mem t a m h

theorem foldl_min_init_le (l : List ℕ) : ∀ a : ℕ, l.foldl min a ≤ a := by
  induction l with
  | nil => intro a; exact Nat.le_refl a
  | cons b t ih =>
    intro a
    exact Nat.le_trans (ih (min a b)) (Nat.min_le_left a b)

theorem foldl_min_mem_le (l : List ℕ) : ∀ a x : ℕ, x ∈ l → l.foldl min a ≤ x := by
  induction l with
  | nil => intro a x hx; simp at hx
  | cons b t ih =>
    intro a x hx
    rcases List.mem_cons.mp hx with h | h
    · subst h
      exact Nat.le_trans (foldl_min_init_le t (min a x)) (Nat.min_le_right a x)
    · exact ih (min a b) x h

theorem le_foldl_min (l : List ℕ) :
    ∀ a m : ℕ, m ≤ a → (∀ x ∈ l, m ≤ x) → m ≤ l.foldl min a := by
  induction l with
  | nil => intro a m ha _; exact ha
  | cons b t ih =>
    intro a m ha hall
    exact ih (min a b) m (Nat.le_min.mpr ⟨ha, hall b (by simp)⟩)
      (fun x hx => hall x (by simp [hx]))

theorem min?_eq_some_of_mem_of_le (l : List ℕ) (m : ℕ)
    (hm : m ∈ l) (hb : ∀ x ∈ l, m ≤ x) : l.min? = some m := by
  cases l with
  | nil => simp at hm
  | cons a t =>
    simp only [List.min?]
    congr 1
    apply Nat.le_antisymm
    · rcases List.mem_cons.mp hm with h | h
      · subst h; exact foldl_min_init_le t m
      · exact foldl_min_mem_le t a m h
    · exact le_foldl_min t a m (hb a (by simp)) (fun x hx => hb x (by simp [hx]))

/- Structure of the values of `df` at the stats lines. -/

theorem dfAtStats_false (n : ℕ) : dfAtStats n false = tableData n := rfl

theorem dfAtStats_true (n : ℕ) : dfAtStats n true = dfRowsTotals n := rfl

theorem mem_dfValues_cases (n : ℕ) (st : Bool) (x : ℕ) (hx : x ∈ dfValues n st) :
    (∃ i, i < n ∧ ∃ j, j < n ∧ x = (i + 1) * (j + 1)) ∨
    (st = true ∧ ∃ i, i < n ∧ x = (i + 1) * oneToSum n) := by
  unfold dfValues at hx
  cases st with
  | false =>
    rw [dfAtStats_false] at hx
    obtain ⟨r, hr, hxr⟩ := List.mem_flatten.mp hx
    rw [tableData_eq_map] at hr
    obtain ⟨i, hi, rfl⟩ := List.mem_map.mp hr
    obtain ⟨j, hj, rfl⟩ := List.mem_map.mp hxr
    exact Or.inl ⟨i, List.mem_range.mp hi, j, List.mem_range.mp hj, rfl⟩
  | true =>
    rw [dfAtStats_true] at hx
    obtain ⟨r, hr, hxr⟩ := List.mem_flatten.mp hx
    unfold dfRowsTotals at hr
    obtain ⟨row, hrow, rfl⟩ := List.mem_map.mp hr
    rw [tableData_eq_map] at hrow
    obtain ⟨i, hi, rfl⟩ := List.mem_map.mp hrow
    rcases List.mem_append.mp hxr with hcell | hsum
    · obtain ⟨j, hj, rfl⟩ := List.mem_map.mp hcell
      exact Or.inl ⟨i, List.mem_range.mp hi, j, List.mem_range.mp hj, rfl⟩
    · have hx' : x = (baseRow n i).sum := by simpa using hsum
      rw [hx', baseRow_sum]
      exact Or.inr ⟨rfl, i, List.mem_range.mp hi, rfl⟩

theorem cell_mem_dfValues (n : ℕ) (st : Bool) (i j : ℕ) (hi : i < n) (hj : j < n) :
    (i + 1) * (j + 1) ∈ dfValues n st := by
  have hcell : (i + 1) * (j + 1) ∈ baseRow n i :=
    List.mem_map.mpr ⟨j, List.mem_range.mpr hj, rfl⟩
  have hrow : baseRow n i ∈ tableData n := by
    rw [tableData_eq_map]
    exact List.mem_map.mpr ⟨i, List.mem_range.mpr hi, rfl⟩
  unfold dfValues
  cases st with
  | false =>
    rw [dfAtStats_false]
    exact List.mem_flatten.mpr ⟨baseRow n i, hrow, hcell⟩
  | true =>
    rw [dfAtStats_true]
    refine List.mem_flatten.mpr ⟨baseRow n i ++ [(baseRow n i).sum], ?_, ?_⟩
    · exact List.mem_map.mpr ⟨baseRow n i, hrow, rfl⟩
    · exact List.mem_append.mpr (Or.inl hcell)

theorem rowTotal_mem_dfValues (n i : ℕ) (hi : i < n) :
    (i + 1) * oneToSum n ∈ dfValues n true := by
  have hrow : baseRow n i ∈ tableData n := by
    rw [tableData_eq_map]
    exact List.mem_map.mpr ⟨i, List.mem_range.mpr hi, rfl⟩
  unfold dfValues
  rw [dfAtStats_true]
  refine List.mem_flatten.mpr ⟨baseRow n i ++ [(baseRow n i).sum], ?_, ?_⟩
  · exact List.mem_map.mpr ⟨baseRow n i, hrow, rfl⟩
  · rw [baseRow_sum]
    exact List.mem_append.mpr (Or.inr (by simp))

theorem dfValues_le_of_totals (n : ℕ) :
    ∀ x ∈ dfValues n true, x ≤ n * oneToSum n := by
  intro x hx
  rcases mem_dfValues_cases n true x hx with ⟨i, hi, j, hj, rfl⟩ | ⟨_, i, hi, rfl⟩
  · exact Nat.mul_le_mul (by omega) (Nat.le_trans (by omega) (le_oneToSum n))
  · exact Nat.mul_le_mul_right _ (by omega)

theorem dfValues_le_of_base (n : ℕ) :
    ∀ x ∈ dfValues n false, x ≤ n * n := by
  intro x hx
  rcases mem_dfValues_cases n false x hx with ⟨i, hi, j, hj, rfl⟩ | ⟨hcontra, _⟩
  · exact Nat.mul_le_mul (by omega) (by omega)
  · simp at hcontra

theorem one_le_dfValues (n : ℕ) (st : Bool) :
    ∀ x ∈ dfValues n st, 1 ≤ x := by
  intro x hx
  rcases mem_dfValues_cases n st x hx with ⟨i, _, j, _, rfl⟩ | ⟨_, i, _, rfl⟩
  · exact Nat.one_le_iff_ne_zero.mpr (by positivity)
  · have := le_oneToSum n
    have : 1 ≤ oneToSum n := by omega
    exact Nat.one_le_iff_ne_zero.mpr (by positivity)

/-- Sum of mapped doubled row sums. -/
theorem sum_map_self_add (l : List (List ℕ)) :
    (l.map (fun r => r.sum + r.sum)).sum = 2 * (l.map List.sum).sum := by
  induction l with
  | nil => rfl
  | cons r t ih =>
    simp only [List.map_cons, List.sum_cons, ih]
    ring

theorem statSum_totals (n : ℕ) : statSum n true = 2 * baseSum n := by
  unfold statSum dfValues baseSum
  rw [dfAtStats_true]
  rw [List.sum_flatten, List.sum_flatten]
  unfold dfRowsTotals
  rw [List.map_map]
  have hfun : (List.sum ∘ fun row => row ++ [row.sum]) =
      (fun r : List ℕ => r.sum + r.sum) := by
    funext r
    simp
  rw [hfun, sum_map_self_add]

theorem statMax_totals (n : ℕ) (h1 : 1 ≤ n) :
    statMax n true = some (n * oneToSum n) := by
  unfold statMax
  apply max?_eq_some_of_mem_of_le
  · have hm := rowTotal_mem_dfValues n (n - 1) (by omega)
    have : n - 1 + 1 = n := by omega
    rwa [this] at hm
  · exact dfValues_le_of_totals n

theorem statMax_base (n : ℕ) (h1 : 1 ≤ n) :
    statMax n false = some (n * n) := by
  unfold statMax
  apply max?_eq_some_of_mem_of_le
  · have hm := cell_mem_dfValues n false (n - 1) (n - 1) (by omega) (by omega)
    have h : n - 1 + 1 = n := by omega
    rwa [h] at hm
  · exact dfValues_le_of_base n

theorem statMin_eq_one (n : ℕ) (st : Bool) (h1 : 1 ≤ n) :
    statMin n st = some 1 := by
  unfold statMin
  apply min?_eq_some_of_mem_of_le
  · have hm := cell_mem_dfValues n st 0 0 (by omega) (by omega)
    simpa using hm
  · exact one_le_dfValues n st

theorem mul_oneToSum_eq_div (n : ℕ) : n * oneToSum n = n * n * (n + 1) / 2 := by
  have h : oneToSum n * 2 = n * (n + 1) := oneToSum_mul_two n
  have h2 : n * n * (n + 1) = n * oneToSum n * 2 := by
    calc n * n * (n + 1) = n * (n * (n + 1)) := by ring
    _ = n * (oneToSum n * 2) := by rw [h]
    _ = n * oneToSum n * 2 := by ring
  omega

/-- C10: the quick statistics are computed over `df` after line 44 has
appended the totals column.  With totals enabled, Max is the largest row
total `n*n*(n+1)/2` (which differs from `n*n`), Sum is exactly twice the
base-matrix sum, and Min is still 1; with totals disabled, Max is `n*n`
and Sum is the base-matrix sum. -/
theorem c10_quick_stats (n : ℕ) (h2 : 2 ≤ n) :
    statMax n true = some (n * n * (n + 1) / 2) ∧
    n * n * (n + 1) / 2 ≠ n * n ∧
    statSum n true = 2 * baseSum n ∧
    statMax n false = some (n * n) ∧
    statSum n false = baseSum n ∧
    statMin n true = some 1 ∧
    statMin n false = some 1 := by
  have h1 : 1 ≤ n := by omega
  refine ⟨?_, ?_, statSum_totals n, statMax_base n h1, rfl,
    statMin_eq_one n true h1, statMin_eq_one n false h1⟩
  · rw [statMax_totals n h1, mul_oneToSum_eq_div]
  · rw [← mul_oneToSum_eq_div]
    intro heq
    have hs : oneToSum n = n := Nat.eq_of_mul_eq_mul_left (by omega) heq
    have hmul : n * 2 = n * (n + 1) := by
      have h := oneToSum_mul_two n
      rw [hs] at h
      linarith
    have h21 : 2 = n + 1 := Nat.eq_of_mul_eq_mul_left (by omega) hmul
    omega

theorem c10_quick_stats_witness :
    statMax 5 true = some (5 * 5 * (5 + 1) / 2) ∧
    5 * 5 * (5 + 1) / 2 ≠ 5 * 5 ∧
    statSum 5 true = 2 * baseSum 5 ∧
    statMax 5 false = some (5 * 5) ∧
    statSum 5 false = baseSum 5 ∧
    statMin 5 true = some 1 ∧
    statMin 5 false = some 1 :=
  c10_quick_stats 5 (by decide)

/- ------------------------------------------------------------------ -/
/- Dataframe model with labels (lines 40-46) and the CSV (line 103)    -/
/- ------------------------------------------------------------------ -/

/-- A pandas dataframe of naturals as the app uses it: row index labels,
column labels, and the rows of values. -/
structure DataFrame where
  index : List String
  columns : List String
  rows : List (List ℕ)
deriving DecidableEq

/-- Label of the totals column added at line 44. -/
def sigmaRowLabel : String := "Σ row"

/-- Label of the totals row added at line 45. -/
def sigmaColLabel : String := "Σ col"

/-- Line 40: `df = pd.DataFrame(data, index=..., columns=...)`. -/
def baseDf (n : ℕ) : DataFrame := ⟨labels n, labels n, tableData n⟩

/-- Lines 43-44: when the totals toggle is on, `df["Σ row"] = df.sum(axis=1)`
mutates `df` itself, adding the totals column; otherwise `df` is unchanged. -/
def dfAfterLine44 (n : ℕ) (showTotals : Bool) : DataFrame :=
  if showTotals then ⟨labels n, labels n ++ [sigmaRowLabel], dfRowsTotals n⟩
  else baseDf n

/-- One CSV line: comma-separated cells plus a newline. -/
def csvLine (cells : List String) : String :=
  String.intercalate "," cells ++ "\n"

/-- Pandas `DataFrame.to_csv(index=True)`: a header line with an empty
index-label cell followed by the column labels, then one line per row led
by its index label. -/
def to_csv (df : DataFrame) : String :=
  csvLine ("" :: df.columns) ++
    String.join ((df.index.zip df.rows).map
      (fun p => csvLine (p.1 :: p.2.map Nat.repr)))

/-- Line 103: `csv = df.to_csv(index=True)` — serializes `df` as it stands
after the optional line-44 mutation. -/
def downloadCsv (n : ℕ) (showTotals : Bool) : String :=
  to_csv (dfAfterLine44 n showTotals)

/-- C2 (code bug): the download button is labelled "Download Base Table"
and the spec promises a CSV of the base matrix with no totals embedded,
but line 44 mutates `df` in place, so with totals enabled the CSV carries
the `Σ row` totals column.  With totals disabled the CSV is the base
table; with totals enabled (shown at n = 5) the serialized dataframe has
the extra totals column — though no totals row. -/
theorem c2_csv_totals_column :
    (∀ n : ℕ, dfAfterLine44 n false = baseDf n) ∧
    dfAfterLine44 5 true ≠ baseDf 5 ∧
    (dfAfterLine44 5 true).columns = labels 5 ++ [sigmaRowLabel] ∧
    (dfAfterLine44 5 true).rows.length = 5 ∧
    (∀ row ∈ (dfAfterLine44 5 true).rows, row.length = 6) ∧
    downloadCsv 5 true ≠ to_csv (baseDf 5) ∧
    downloadCsv 5 false = to_csv (baseDf 5) :=
  ⟨fun _ => rfl, by decide, rfl, rfl, by decide, by decide, rfl⟩

theorem c2_csv_totals_column_witness :
    dfAfterLine44 7 false = baseDf 7 ∧
    ((dfAfterLine44 5 true).rows.getD 0 []).length = 6 :=
  ⟨c2_csv_totals_column.1 7,
   c2_csv_totals_column.2.2.2.2.1 ((dfAfterLine44 5 true).rows.getD 0 [])
     (by decide)⟩

/- ------------------------------------------------------------------ -/
/- Totals row, display dataframe (lines 45-48), highlight (lines 73-80)-/
/- ------------------------------------------------------------------ -/

/-- Line 45: `list(df.sum(axis=0))` — the per-column sums of the mutated
`df`, which at this point has `n + 1` columns (the last being `Σ row`). -/
def totalRowValues (n : ℕ) : List ℕ :=
  (List.range (n + 1)).map (fun j => ((dfRowsTotals n).map (fun r => r.getD j 0)).sum)

/-- Lines 43-48: the values of `df_display` — with totals the mutated rows
plus the `Σ col` totals row, otherwise a copy of the base matrix. -/
def dfDisplayRows (n : ℕ) (showTotals : Bool) : List (List ℕ) :=
  if showTotals then dfRowsTotals n ++ [totalRowValues n] else tableData n

/-- Line 77: the orange background returned by `_highlight` for multiples. -/
def highlightColor : String := "background-color: rgba(255,165,0,0.22);"

/-- Lines 75-78 (non-raising path of `_highlight`): per-cell styles for one
row of `df_display` — the orange background exactly on multiples of `k`. -/
def highlightRow (k : ℕ) (v : List ℕ) : List String :=
  v.map (fun x => if x % k == 0 then highlightColor else "")

/-- Lines 75-79 with the `except` branch: if computing the styles of a row
raises, the handler returns an unstyled cell for every entry of the row. -/
def highlightRowSafe (fails : Bool) (k : ℕ) (v : List ℕ) : List String :=
  if fails then v.map (fun _ => "") else highlightRow k v

theorem dfRowsTotals_eq_map (n : ℕ) :
    dfRowsTotals n = (List.range n).map (fun i => baseRow n i ++ [(baseRow n i).sum]) := by
  unfold dfRowsTotals
  rw [tableData_eq_map, List.map_map]
  rfl

theorem dfRowsTotals_getD (n i : ℕ) (hi : i < n) :
    (dfRowsTotals n).getD i [] = baseRow n i ++ [(baseRow n i).sum] := by
  rw [dfRowsTotals_eq_map]
  rw [getD_map_of_lt _ _ i (by simpa using hi) _ 0]
  rw [range_getD_of_lt n i hi]

theorem dfRowsTotals_length (n : ℕ) : (dfRowsTotals n).length = n := by
  rw [dfRowsTotals_eq_map]
  simp

/-- The totals column cell of display row `i` is the base row sum. -/
theorem displayRow_totalsCell (n i : ℕ) (hi : i < n) :
    ((dfDisplayRows n true).getD i []).getD n 0 = (i + 1) * oneToSum n := by
  unfold dfDisplayRows
  rw [if_pos rfl]
  rw [List.getD_append _ _ _ _ (by rw [dfRowsTotals_length]; exact hi)]
  rw [dfRowsTotals_getD n i hi]
  rw [List.getD_append_right _ _ _ _ (by rw [baseRow_length])]
  rw [baseRow_length]
  simp [baseRow_sum]

/-- The last display row is the totals row. -/
theorem displayRows_lastRow (n : ℕ) :
    (dfDisplayRows n true).getD n [] = totalRowValues n := by
  unfold dfDisplayRows
  rw [if_pos rfl]
  rw [List.getD_append_right _ _ _ _ (by rw [dfRowsTotals_length])]
  rw [dfRowsTotals_length]
  simp

/-- Cell of the totals row over a base column `j < n`: the base column sum. -/
theorem totalRowValues_baseCol (n j : ℕ) (hj : j < n) :
    (totalRowValues n).getD j 0 = oneToSum n * (j + 1) := by
  unfold totalRowValues
  rw [getD_map_of_lt _ _ j (by simp; omega) _ 0]
  rw [range_getD_of_lt (n + 1) j (by omega)]
  rw [dfRowsTotals_eq_map, List.map_map]
  have hfun : ((fun r : List ℕ => r.getD j 0) ∘
      fun i => baseRow n i ++ [(baseRow n i).sum]) =
      (fun i => (i + 1) * (j + 1)) := by
    funext i
    simp only [Function.comp]
    rw [List.getD_append _ _ _ _ (by rw [baseRow_length]; exact hj)]
    unfold baseRow
    rw [getD_map_of_lt _ _ j (by simpa using hj) _ 0]
    rw [range_getD_of_lt n j hj]
  rw [hfun]
  have := List.sum_map_mul_right (List.range n) (fun i => i + 1) (j + 1)
  simpa [oneToSum] using this

theorem baseSum_eq (n : ℕ) : baseSum n = oneToSum n * oneToSum n := by
  unfold baseSum
  rw [List.sum_flatten, tableData_eq_map, List.map_map]
  have hfun : (List.sum ∘ baseRow n) = fun i => (i + 1) * oneToSum n := by
    funext i
    simp [Function.comp, baseRow_sum]
  rw [hfun]
  have := List.sum_map_mul_right (List.range n) (fun i => i + 1) (oneToSum n)
  simpa [oneToSum] using this

/-- The corner cell of the totals row: the sum of the `Σ row` column, which
equals the grand total of the base matrix. -/
theorem totalRowValues_corner (n : ℕ) :
    (totalRowValues n).getD n 0 = baseSum n := by
  unfold totalRowValues
  rw [getD_map_of_lt _ _ n (by simp) _ 0]
  rw [range_getD_of_lt (n + 1) n (by omega)]
  rw [dfRowsTotals_eq_map, List.map_map]
  have hfun : ((fun r : List ℕ => r.getD n 0) ∘
      fun i => baseRow n i ++ [(baseRow n i).sum]) =
      (fun i => (i + 1) * oneToSum n) := by
    funext i
    simp only [Function.comp]
    rw [List.getD_append_right _ _ _ _ (by rw [baseRow_length])]
    rw [baseRow_length]
    simp [baseRow_sum]
  rw [hfun, baseSum_eq]
  have := List.sum_map_mul_right (List.range n) (fun i => i + 1) (oneToSum n)
  simpa [oneToSum] using this

/-- C3 counterexample: the claim says totals cells are never highlighted,
but at n = 5 with "highlight multiples of 5" the totals cell of the first
display row holds 15 and `_highlight` paints it orange. -/
theorem c3_totals_highlighted_counterexample :
    ((dfDisplayRows 5 true).getD 0 []).getD 5 0 = 15 ∧
    (highlightRow 5 ((dfDisplayRows 5 true).getD 0 [])).getD 5 "" = highlightColor ∧
    highlightColor ≠ "" := by
  decide

/-- C3 (amended): every totals cell is numerically the sum of the
corresponding base-matrix axis — row totals are base row sums, base-column
entries of the totals row are base column sums, and the shared corner is
the grand total of the base matrix (obtained by summing the row-totals
column).  However, `_highlight` runs over the augmented display rows, so a
totals cell is highlighted exactly when its value is a multiple of `k`. -/
theorem c3_totals_cells (n i j k : ℕ) (hi : i < n) (hj : j < n) :
    ((dfDisplayRows n true).getD i []).getD n 0 = (i + 1) * oneToSum n ∧
    (totalRowValues n).getD j 0 = oneToSum n * (j + 1) ∧
    (dfDisplayRows n true).getD n [] = totalRowValues n ∧
    (totalRowValues n).getD n 0 = baseSum n ∧
    (highlightRow k ((dfDisplayRows n true).getD i [])).getD n "" =
      (if ((i + 1) * oneToSum n) % k == 0 then highlightColor else "") := by
  refine ⟨displayRow_totalsCell n i hi, totalRowValues_baseCol n j hj,
    displayRows_lastRow n, totalRowValues_corner n, ?_⟩
  unfold dfDisplayRows
  rw [if_pos rfl]
  rw [List.getD_append _ _ _ _ (by rw [dfRowsTotals_length]; exact hi)]
  rw [dfRowsTotals_getD n i hi]
  unfold highlightRow
  rw [getD_map_of_lt _ _ n (by rw [List.length_append, baseRow_length]; simp) _ 0]
  rw [List.getD_append_right _ _ _ _ (by rw [baseRow_length])]
  rw [baseRow_length]
  simp [baseRow_sum]

theorem c3_totals_cells_witness :
    ((dfDisplayRows 5 true).getD 1 []).getD 5 0 = (1 + 1) * oneToSum 5 ∧
    (totalRowValues 5).getD 2 0 = oneToSum 5 * (2 + 1) ∧
    (dfDisplayRows 5 true).getD 5 [] = totalRowValues 5 ∧
    (totalRowValues 5).getD 5 0 = baseSum 5 ∧
    (highlightRow 3 ((dfDisplayRows 5 true).getD 1 [])).getD 5 "" =
      (if ((1 + 1) * oneToSum 5) % 3 == 0 then highlightColor else "") :=
  c3_totals_cells 5 1 2 3 (by decide) (by decide)

/- ------------------------------------------------------------------ -/
/- C6: failure handling of the rendering pipeline (lines 66-109)       -/
/- ------------------------------------------------------------------ -/

/-- The page elements the script emits, in source order: quick stats
(lines 55-63), the styled table (line 84, with a flag recording whether
`_highlight` fell back to unstyled rows), the heatmap (lines 87-100), the
download button (line 104), and the fun-facts expander (line 112). -/
inductive PageElement where
  | quickStats : PageElement
  | tableView (highlightDegraded : Bool) : PageElement
  | heatmapView : PageElement
  | downloadButton : PageElement
  | funFacts : PageElement
deriving DecidableEq

/-- Top-to-bottom run of the script after the data section, with a flag
for each styling/visualization step that can raise.  Only `_highlight`
(lines 75-79) wraps its work in try/except; the colour gradient is
computed when `st.dataframe(styler)` renders at line 84, and the heatmap
block (lines 87-100) has no handler, so either of those failing raises out
of the script, ending the run.  Streamlit keeps the elements already
emitted and stops executing the rest.  Returns the emitted elements and
whether the run aborted. -/
def renderPage (showHeatmap highlightOn gradientFails highlightFails heatmapFails : Bool) :
    List PageElement × Bool :=
  let shown := [PageElement.quickStats]
  if gradientFails then (shown, true)
  else
    let shown := shown ++ [PageElement.tableView (highlightOn && highlightFails)]
    if showHeatmap && heatmapFails then (shown, true)
    else
      let shown := shown ++ (if showHeatmap then [PageElement.heatmapView] else [])
      (shown ++ [PageElement.downloadButton, PageElement.funFacts], false)

/-- C6 counterexample: the claim says any failing visualization step is
caught locally and never aborts the page, with the base table always
displayed.  But a heatmap failure aborts the run (the download button and
expander are never emitted), and a colour-gradient failure aborts before
the base table is even shown. -/
theorem c6_degradation_counterexample :
    (renderPage true false false false true).2 = true ∧
    PageElement.downloadButton ∉ (renderPage true false false false true).1 ∧
    (renderPage false false true false false).2 = true ∧
    (∀ b, PageElement.tableView b ∉ (renderPage false false true false false).1) := by
  decide

/-- C6 (amended): only a failure inside `_highlight` is caught locally —
the affected rows degrade to unstyled cells and the page completes.  A
colour-gradient failure or a heatmap failure is not caught: the run aborts
exactly when the gradient fails or the heatmap is shown and fails; the
base table is emitted iff the gradient step did not fail, and the rest of
the page (download button) is emitted iff nothing aborted. -/
theorem c6_degradation_behavior (sh ho gf hlf hmf : Bool) :
    (renderPage sh ho gf hlf hmf).2 = (gf || (sh && hmf)) ∧
    (PageElement.tableView (ho && hlf) ∈ (renderPage sh ho gf hlf hmf).1 ↔ gf = false) ∧
    (PageElement.downloadButton ∈ (renderPage sh ho gf hlf hmf).1 ↔
      (gf = false ∧ (sh && hmf) = false)) ∧
    (∀ k v, highlightRowSafe true k v = v.map (fun _ => "")) := by
  refine ⟨?_, ?_, ?_, fun k v => rfl⟩ <;> revert sh ho gf hlf hmf <;> decide

theorem c6_degradation_behavior_witness :
    (renderPage true true false true false).2 = (false || (true && false)) ∧
    (PageElement.tableView (true && true) ∈ (renderPage true true false true false).1 ↔
      false = false) ∧
    (PageElement.downloadButton ∈ (renderPage true true false true false).1 ↔
      (false = false ∧ (true && false) = false)) ∧
    (∀ k v, highlightRowSafe true k v = v.map (fun _ => "")) :=
  c6_degradation_behavior true true false true false

/- ------------------------------------------------------------------ -/
/- C8: image adjustment pipeline (modelled from the spec)              -/
/- ------------------------------------------------------------------ -/

/-- Modelled from the spec: channel layouts of a SourceImage; the repo's
image-filter script is not under src/, so the data model follows spec §3
(RGB or RGBA) plus a single-channel mode the one-time normalization of
§4.1 step 1 expands. -/
inductive ColorMode where
  | grayL : ColorMode
  | rgb : ColorMode
  | rgba : ColorMode
deriving DecidableEq

/-- Modelled from the spec: one pixel with colour channels and alpha. -/
structure Pixel where
  r : ℕ
  g : ℕ
  b : ℕ
  a : ℕ
deriving DecidableEq

/-- Modelled from the spec: an immutable pixel buffer with width, height
and channel layout (spec §3). -/
structure SourceImage where
  width : ℕ
  height : ℕ
  mode : ColorMode
  pixels : List Pixel
deriving DecidableEq

/-- Modelled from the spec: §4.1 step 1 — normalize the colour mode to a
consistent 3- or 4-channel layout; single-channel images are expanded to
RGB, images already RGB/RGBA are untouched. -/
def normalizeMode (img : SourceImage) : SourceImage :=
  match img.mode with
  | ColorMode.grayL =>
      { img with mode := ColorMode.rgb,
                 pixels := img.pixels.map (fun p => ⟨p.r, p.r, p.r, p.a⟩) }
  | ColorMode.rgb => img
  | ColorMode.rgba => img

/-- Clamp a rational channel value to [0, 255] (spec §4.1 step 3). -/
def clamp255 (x : ℚ) : ℚ := min (max x 0) 255

/-- Modelled from the spec: §4.1 step 2 — grayscale converts to luminance
then re-expands to the original channel count. -/
def grayscaleOp (img : SourceImage) : SourceImage :=
  { img with pixels := img.pixels.map (fun p =>
      let l := ((299 * p.r + 587 * p.g + 114 * p.b : ℚ) / 1000).floor.toNat
      ⟨l, l, l, p.a⟩) }

/-- Modelled from the spec: §4.1 step 3 — the fixed sepia colour matrix,
clamped to [0, 255], blended linearly with the original by `intensity`;
alpha is carried through untouched. -/
def sepiaPixel (t : ℚ) (p : Pixel) : Pixel :=
  let sr := clamp255 ((393 * p.r + 769 * p.g + 189 * p.b : ℚ) / 1000)
  let sg := clamp255 ((349 * p.r + 686 * p.g + 168 * p.b : ℚ) / 1000)
  let sb := clamp255 ((272 * p.r + 534 * p.g + 131 * p.b : ℚ) / 1000)
  ⟨((1 - t) * p.r + t * sr).floor.toNat,
   ((1 - t) * p.g + t * sg).floor.toNat,
   ((1 - t) * p.b + t * sb).floor.toNat,
   p.a⟩

/-- Modelled from the spec: sepia applied to all pixels of an image. -/
def sepiaOp (t : ℚ) (img : SourceImage) : SourceImage :=
  { img with pixels := img.pixels.map (sepiaPixel t) }

/-- Modelled from the spec: the black-box filter primitives the pipeline
calls into (spec §1, §6): blur, the four enhancement scalars, rotation
with optional canvas expansion, and the two flips.  They are quantified
over, not implemented, exactly as the spec treats them. -/
structure FilterPrimitives where
  blur : ℚ → SourceImage → SourceImage
  brightness : ℚ → SourceImage → SourceImage
  contrast : ℚ → SourceImage → SourceImage
  saturation : ℚ → SourceImage → SourceImage
  sharpness : ℚ → SourceImage → SourceImage
  rotate : ℚ → Bool → SourceImage → SourceImage
  flipH : SourceImage → SourceImage
  flipV : SourceImage → SourceImage

/-- Modelled from the spec: the AdjustmentSpec record of §3. -/
structure AdjustmentSpec where
  grayscale : Bool
  sepiaEnabled : Bool
  sepiaIntensity : ℚ
  blurRadius : ℚ
  brightness : ℚ
  contrast : ℚ
  saturation : ℚ
  sharpness : ℚ
  rotationDegrees : ℚ
  expandCanvas : Bool
  flipHorizontal : Bool
  flipVertical : Bool

/-- Floating-point tolerance around 1.0 for the enhancement scalars
(spec §4.1 step 5). -/
def scalarTol : ℚ := 1 / 1000000

/-- Modelled from the spec: §4.1 `apply(source, spec)` — the fixed stage
order normalize → grayscale → sepia → blur → brightness → contrast →
saturation → sharpness → rotate → horizontal flip → vertical flip, each
stage skipped at its identity value. -/
def applyAdjustments (P : FilterPrimitives) (src : SourceImage)
    (s : AdjustmentSpec) : SourceImage :=
  let i0 := normalizeMode src
  let i1 := if s.grayscale then grayscaleOp i0 else i0
  let i2 := if s.sepiaEnabled then sepiaOp s.sepiaIntensity i1 else i1
  let i3 := if 0 < s.blurRadius then P.blur s.blurRadius i2 else i2
  let i4 := if scalarTol < |s.brightness - 1| then P.brightness s.brightness i3 else i3
  let i5 := if scalarTol < |s.contrast - 1| then P.contrast s.contrast i4 else i4
  let i6 := if scalarTol < |s.saturation - 1| then P.saturation s.saturation i5 else i5
  let i7 := if scalarTol < |s.sharpness - 1| then P.sharpness s.sharpness i6 else i6
  let i8 := if s.rotationDegrees ≠ 0 then P.rotate s.rotationDegrees s.expandCanvas i7 else i7
  let i9 := if s.flipHorizontal then P.flipH i8 else i8
  if s.flipVertical then P.flipV i9 else i9

/-- Modelled from the spec: the all-identity AdjustmentSpec — grayscale
off, sepia disabled, blur 0, all scalars 1.0, rotation 0, no flips. -/
def identitySpec : AdjustmentSpec :=
  ⟨false, false, 0, 0, 1, 1, 1, 1, 0, false, false, false⟩

/-- Every stage of the pipeline is skipped on the identity spec, so the
result is exactly the mode-normalized input. -/
theorem applyAdjustments_identity (P : FilterPrimitives) (img : SourceImage) :
    applyAdjustments P img identitySpec = normalizeMode img := by
  unfold applyAdjustments identitySpec
  norm_num [scalarTol]

/-- Mode normalization is the identity on images already in a 3- or
4-channel layout. -/
theorem normalizeMode_of_normal (img : SourceImage)
    (h : img.mode = ColorMode.rgb ∨ img.mode = ColorMode.rgba) :
    normalizeMode img = img := by
  unfold normalizeMode
  rcases h with h | h <;> rw [h]

/-- C8: applying an AdjustmentSpec with all fields at identity values via
`apply(source, spec)` yields an image identical to the input — for any
choice of the black-box filter primitives and any source image already in
a normalized (RGB or RGBA) channel mode; mode normalization itself is the
only possible change and is the identity on such images. -/
theorem c8_identity_spec (P : FilterPrimitives) (img : SourceImage)
    (h : img.mode = ColorMode.rgb ∨ img.mode = ColorMode.rgba) :
    applyAdjustments P img identitySpec = img := by
  rw [applyAdjustments_identity, normalizeMode_of_normal img h]

/-- Concrete filter primitives for evaluating the pipeline at an input. -/
def constPrimitives : FilterPrimitives :=
  ⟨fun _ i => i, fun _ i => i, fun _ i => i, fun _ i => i, fun _ i => i,
   fun _ _ i => i, fun i => i, fun i => i⟩

/-- A concrete 1×2 RGBA test image. -/
def sampleImage : SourceImage :=
  ⟨2, 1, ColorMode.rgba, [⟨10, 20, 30, 255⟩, ⟨200, 100, 0, 128⟩]⟩

theorem c8_identity_spec_witness :
    applyAdjustments constPrimitives sampleImage identitySpec = sampleImage :=
  c8_identity_spec constPrimitives sampleImage (by right; rfl)

end MultTable
